import Mathlib

/-!
Verification development for `bench_hstream_kafka.py`, the template-rendering
and run-orchestration engine of the hstream-kafka benchmark harness.

Strings are modelled as `List Char` (Python `str`).  The renderer core
(`setup_drivers` / `gen_driver`, lines 48-63 of the source) performs, for each
driver template, a *sequential* `str.replace` for every key/value pair of the
override dict, in dict insertion order.  The orchestration (`main`, lines
66-156) is modelled as a pure per-scenario step function producing an event
trace, the set of files written into the scenario workspace, and an
`Except`-typed outcome mirroring Python exception propagation.
-/

namespace Bench

/-- Convert a string literal to the `List Char` representation used throughout. -/
def sl (s : String) : List Char := s.toList

/-! ## Python `str.replace`

`replaceCore k v s` scans `s` left to right; at each position, if `k` matches,
it emits `v` and resumes *after* the matched text (Python's `str.replace` never
re-scans the text it inserted within a single call), otherwise it copies one
character.  `pyReplace` adds Python's special case for the empty pattern
(`"ab".replace("", "x") == "xaxbx"`). -/

def replaceCoreF (k v : List Char) : Nat → List Char → List Char
  | _, [] => []
  | 0, s => s
  | n + 1, c :: rest =>
    if k.isPrefixOf (c :: rest) then
      v ++ replaceCoreF k v n (List.drop (k.length - 1) rest)
    else
      c :: replaceCoreF k v n rest

/-- The scanning loop of Python `str.replace` for a non-empty pattern `k`. -/
def replaceCore (k v s : List Char) : List Char :=
  replaceCoreF k v s.length s

/-- Model of Python `s.replace(k, v)`. -/
def pyReplace (s k v : List Char) : List Char :=
  if k.isEmpty then v ++ s.flatMap (fun c => c :: v)
  else replaceCore k v s

/-- The renderer loop body (lines 56-57 of the source):
`for k, v in overrides.items(): tmpl_contents = tmpl_contents.replace(k, v)`.
Python dicts iterate in insertion order, so the override dict is modelled as an
association list applied left to right. -/
def applyOverrides (overrides : List (List Char × List Char)) (s : List Char) : List Char :=
  overrides.foldl (fun acc kv => pyReplace acc kv.1 kv.2) s

/-- Modelled from the spec (sections 4.2 and 9): the *single-pass simultaneous*
substitution the spec mandates — "collect all tokens, scan the template once,
and replace each match using its corresponding value looked up at match time —
equivalent to a single-pass tokenizing replace, never re-scanning inserted
text".  Used only to compare the code's sequential renderer against the spec's
wording; an empty token never matches. -/
def singlePassF (overrides : List (List Char × List Char)) : Nat → List Char → List Char
  | _, [] => []
  | 0, s => s
  | n + 1, c :: rest =>
    match overrides.find? (fun kv => !kv.1.isEmpty && kv.1.isPrefixOf (c :: rest)) with
    | some kv => kv.2 ++ singlePassF overrides n (List.drop (kv.1.length - 1) rest)
    | none => c :: singlePassF overrides n rest

/-- The single-pass scan itself, run with enough fuel. -/
def singlePassSubst (overrides : List (List Char × List Char)) (s : List Char) : List Char :=
  singlePassF overrides s.length s

/-! ## Orchestration model (`main`, lines 66-156)

A scenario iteration is modelled as a pure step function over an environment
describing the filesystem and the external executor's behaviour.  It produces
the event trace of the iteration (renders, the executor invocation, result
collection, the logged-but-never-executed chart command), the set of files
written into the ephemeral workspace, and an `Except`-typed outcome mirroring
Python exception propagation (`FileNotFoundError` from `os.scandir`,
`TypeError` from `str.join`, `CalledProcessError` from `subprocess.run`
with `check=True`). -/

/-- A directory entry as yielded by `os.scandir` (name, regular-file flag) plus
the file's content for template files. -/
structure FsEntry where
  name : List Char
  isFile : Bool
  content : List Char
  deriving DecidableEq

/-- The exceptions the scenario loop can raise. -/
inductive Err where
  | fileNotFound (dir : List Char)
  | typeError
  | calledProcessError (code : Int)
  deriving DecidableEq

/-- Observable actions of a scenario iteration, in program order. -/
inductive Ev where
  | render (path : List Char) (content : List Char)
  | runBench (cmd : List Char)
  | collect (dir : List Char)
  | logChart (cmd : List Char)
  deriving DecidableEq

/-- Per-scenario environment: the fresh `TemporaryDirectory` path, the
`driver-tmpls` and `workloads` directory listings (`none` = directory absent,
so `os.scandir` raises `FileNotFoundError`), the exit status of
`bin/benchmark`, and the listing of the scenario's output directory when it is
globbed after a successful run. -/
structure Env where
  tmpDir : List Char
  driverTmplListing : Option (List FsEntry)
  workloadListing : Option (List FsEntry)
  benchExitCode : Int
  resultListing : List FsEntry
  deriving DecidableEq

/-- `os.path.join` for one extra component. -/
def join2 (a b : List Char) : List Char := a ++ '/' :: b

/-- `os.path.join(gen_dir, scenario, "drivers")` then the template's name
(lines 49 and 58). -/
def driverFilePath (genDir scenario name : List Char) : List Char :=
  join2 (join2 (join2 genDir scenario) (sl "drivers")) name

/-- `get_driver_tmpls` (lines 23-30): scan the scenario's `driver-tmpls`
directory, keeping regular files; a missing directory raises
`FileNotFoundError`. -/
def get_driver_tmpls (listing : Option (List FsEntry)) (dir : List Char) :
    Except Err (List FsEntry) :=
  match listing with
  | none => .error (.fileNotFound dir)
  | some l => .ok (l.filter (fun e => e.isFile))

/-- `get_workloads` (lines 33-36): same shape as `get_driver_tmpls`. -/
def get_workloads (listing : Option (List FsEntry)) (dir : List Char) :
    Except Err (List FsEntry) :=
  match listing with
  | none => .error (.fileNotFound dir)
  | some l => .ok (l.filter (fun e => e.isFile))

/-- `get_results` (lines 39-45): `glob.glob(os.path.join(result_dir, "*.json"),
recursive=False)`.  `glob` matches any directory entry (file or directory)
whose name matches `*.json`, and—like the shell—skips names beginning with a
dot; without a `**` component it never recurses.  It returns full paths. -/
def get_results (resultDir : List Char) (listing : List FsEntry) : List (List Char) :=
  (listing.filter
      (fun e => (sl ".json").isSuffixOf e.name && !((sl ".").isPrefixOf e.name))).map
    (fun e => join2 resultDir e.name)

/-- Python truthiness of `args["driver"]` / `args["workload"]`: `None` and the
empty list are falsy (lines 129 and 140). -/
def truthy (f : Option (List (List Char))) : Bool :=
  match f with
  | some (_ :: _) => true
  | _ => false

/-- The name filters of lines 129-132 and 140-141: applied only when the
argument is truthy, keeping entries whose `name` is a member of the filter
list (exact string equality). -/
def selectByName (f : Option (List (List Char))) (xs : List FsEntry) : List FsEntry :=
  if truthy f then xs.filter (fun x => decide (x.name ∈ f.getD [])) else xs

/-- The kafka override dict of lines 109-112, in insertion order. -/
def kafkaOverrides (kafkaArg : List Char) : List (List Char × List Char) :=
  [(sl "__NAME__", sl "kafka"), (sl "__BOOTSTRAP_SERVERS__", kafkaArg)]

/-- The hstream override dict of lines 113-116, in insertion order. -/
def hstreamOverrides (hstreamArg : List Char) : List (List Char × List Char) :=
  [(sl "__NAME__", sl "hstream-kafka"), (sl "__BOOTSTRAP_SERVERS__", hstreamArg)]

/-- `setup_drivers` (lines 48-63): render every template with the override
dict and write it under `<gen_dir>/<scenario>/drivers/<name>`.  Returns the
written files (path, content) and the list of paths the generator yields. -/
def setup_drivers (tmpls : List FsEntry) (scenario genDir : List Char)
    (overrides : List (List Char × List Char)) :
    List (List Char × List Char) × List (List Char) :=
  let files := tmpls.map
    (fun t => (driverFilePath genDir scenario t.name, applyOverrides overrides t.content))
  (files, files.map (fun f => f.1))

/-- Line 144, `" ".join(workloads)`: the items are `os.DirEntry` objects, not
`str`, so `str.join` raises `TypeError` on the first item; only the empty list
joins (to the empty string). -/
def joinWorkloadEntries (ws : List FsEntry) : Except Err (List Char) :=
  match ws with
  | [] => .ok []
  | _ :: _ => .error .typeError

instance : DecidableEq (Except Err Unit) := fun a b =>
  match a, b with
  | .ok (), .ok () => isTrue rfl
  | .error e, .error f =>
    if h : e = f then isTrue (by rw [h]) else isFalse (fun hh => by cases hh; exact h rfl)
  | .ok _, .error _ => isFalse (fun h => by cases h)
  | .error _, .ok _ => isFalse (fun h => by cases h)

/-- Outcome of one scenario iteration: its event trace, the files that still
exist after the `TemporaryDirectory` context exits, and the propagated
exception if any. -/
structure ScenarioOutcome where
  events : List Ev
  leftover : List (List Char × List Char)
  result : Except Err Unit
  deriving DecidableEq

/-- The body of the `for s in scenarios` loop (lines 120-155), inside the
`TemporaryDirectory` context: returns (events, files written into the
workspace, outcome).  Mirrors the source order: scan `driver-tmpls`, filter,
render for both targets, scan `workloads`, filter, join the workload entries,
build and run the bench command, then collect results and build (but never
run) the chart command. -/
def runScenarioBody (root : List Char) (env : Env)
    (driverFilter workloadFilter : Option (List (List Char)))
    (s resultDir kafkaArg hstreamArg : List Char) :
    List Ev × List (List Char × List Char) × Except Err Unit :=
  let kafkaDir := join2 env.tmpDir (sl "kafka")
  let hstreamDir := join2 env.tmpDir (sl "hstream")
  let outDir := join2 resultDir s
  match get_driver_tmpls env.driverTmplListing (join2 (join2 root s) (sl "driver-tmpls")) with
  | .error e => ([], [], .error e)
  | .ok allTmpls =>
    let tmpls := selectByName driverFilter allTmpls
    let kafka := setup_drivers tmpls s kafkaDir (kafkaOverrides kafkaArg)
    let hstream := setup_drivers tmpls s hstreamDir (hstreamOverrides hstreamArg)
    let writes := kafka.1 ++ hstream.1
    let renderEvs := writes.map (fun w => Ev.render w.1 w.2)
    match get_workloads env.workloadListing (join2 (join2 root s) (sl "workloads")) with
    | .error e => (renderEvs, writes, .error e)
    | .ok allWorkloads =>
      let workloads := selectByName workloadFilter allWorkloads
      match joinWorkloadEntries workloads with
      | .error e => (renderEvs, writes, .error e)
      | .ok cmdWorkloads =>
        let cmdDrivers := List.intercalate (sl ",") (kafka.2 ++ hstream.2)
        let benchCmd :=
          sl "bin/benchmark -d " ++ cmdDrivers ++ sl " -od " ++ outDir ++ sl " " ++ cmdWorkloads
        if env.benchExitCode = 0 then
          let results := get_results outDir env.resultListing
          if results.isEmpty then
            (renderEvs ++ [.runBench benchCmd, .collect outDir], writes, .ok ())
          else
            let drawCmd :=
              sl "bin/create_charts.py -o " ++ outDir ++ sl " -r "
                ++ List.intercalate (sl " ") results
            (renderEvs ++ [.runBench benchCmd, .collect outDir, .logChart drawCmd], writes, .ok ())
        else
          (renderEvs ++ [.runBench benchCmd], writes,
            .error (.calledProcessError env.benchExitCode))

/-- One scenario iteration including the `TemporaryDirectory` teardown: on
*every* exit path the context manager removes the tree rooted at
`env.tmpDir`, so only files written outside it survive. -/
def runScenario (root : List Char) (env : Env)
    (driverFilter workloadFilter : Option (List (List Char)))
    (s resultDir kafkaArg hstreamArg : List Char) : ScenarioOutcome :=
  let r := runScenarioBody root env driverFilter workloadFilter s resultDir kafkaArg hstreamArg
  { events := r.1
    leftover := r.2.1.filter (fun w => !(env.tmpDir.isPrefixOf w.1))
    result := r.2.2 }

/-- The `for s in scenarios` loop: strictly sequential; an uncaught exception
aborts the loop, skipping all remaining scenarios. -/
def runAll (root : List Char) (driverFilter workloadFilter : Option (List (List Char)))
    (resultDir kafkaArg hstreamArg : List Char) :
    List (List Char × Env) → List Ev × Except Err Unit
  | [] => ([], .ok ())
  | (s, env) :: rest =>
    let o := runScenario root env driverFilter workloadFilter s resultDir kafkaArg hstreamArg
    match o.result with
    | .ok _ =>
      let r := runAll root driverFilter workloadFilter resultDir kafkaArg hstreamArg rest
      (o.events ++ r.1, r.2)
    | .error e => (o.events, .error e)

/-- Process exit status: an uncaught exception terminates the interpreter with
a non-zero status. -/
def processExit (r : Except Err Unit) : Nat :=
  match r with
  | .ok _ => 0
  | .error _ => 1

/-- Modelled from the spec (section 4.5): "`findResults(outputDirectory)`
returns the set of files directly inside `outputDirectory` whose name matches
a result-artifact extension" — i.e. *regular files* with a `.json` name,
used to compare `get_results` against the spec's wording. -/
def specResultFiles (resultDir : List Char) (listing : List FsEntry) : List (List Char) :=
  (listing.filter (fun e => e.isFile && (sl ".json").isSuffixOf e.name)).map
    (fun e => join2 resultDir e.name)

/-! ## Sequential vs. single-pass substitution

`applyOverrides` (the code) differs from `singlePassSubst` (the spec) in
general; they agree under the following conditions: all keys and values are
non-empty, no value contains a character occurring in any key, and the keys'
occurrences in the template are pairwise non-overlapping. -/

/-- No override value contains any character that occurs in any override key,
so inserted text can neither contain a key nor take part in a new key
occurrence. -/
def ValueCharsFresh (M : List (List Char × List Char)) : Prop :=
  ∀ p ∈ M, ∀ q ∈ M, ∀ c ∈ p.2, c ∉ q.1

/-- Occurrences of the override keys in `T` are pairwise non-overlapping (two
distinct matches never share a position). -/
def NonOverlap (M : List (List Char × List Char)) (T : List Char) : Prop :=
  ∀ p ∈ M, ∀ q ∈ M, ∀ n m : Nat,
    p.1.isPrefixOf (List.drop n T) = true → q.1.isPrefixOf (List.drop m T) = true →
    (p ≠ q ∨ n ≠ m) → n + p.1.length ≤ m ∨ m + q.1.length ≤ n

/-- The combined hypotheses under which sequential and single-pass
substitution agree. -/
def Safe (M : List (List Char × List Char)) (T : List Char) : Prop :=
  (∀ p ∈ M, p.1 ≠ [] ∧ p.2 ≠ []) ∧ ValueCharsFresh M ∧ NonOverlap M T

/-- Executable check for `Safe` (occurrence positions bounded by the template
length), used to verify concrete instances by evaluation. -/
def safeB (M : List (List Char × List Char)) (T : List Char) : Bool :=
  M.all (fun p => !p.1.isEmpty && !p.2.isEmpty) &&
  M.all (fun p => M.all (fun q => p.2.all (fun c => !(decide (c ∈ q.1))))) &&
  (List.range T.length).all (fun n => (List.range T.length).all (fun m =>
    M.all (fun p => M.all (fun q =>
      !(p.1.isPrefixOf (List.drop n T)) || !(q.1.isPrefixOf (List.drop m T)) ||
      (decide (p = q) && decide (n = m)) ||
      decide (n + p.1.length ≤ m) || decide (m + q.1.length ≤ n)))))

/-! ## Theorems -/

theorem replaceCoreF_congr (k v : List Char) :
    ∀ (n m : Nat) (s : List Char), s.length ≤ n → s.length ≤ m →
      replaceCoreF k v n s = replaceCoreF k v m s := by
  intro n
  induction n with
  | zero =>
    intro m s hn _
    have : s = [] := List.length_eq_zero.mp (Nat.le_antisymm hn (Nat.zero_le _))
    subst this
    cases m <;> rfl
  | succ n ih =>
    intro m s hn hm
    cases s with
    | nil => cases m <;> rfl
    | cons c rest =>
      cases m with
      | zero => simp at hm
      | succ m =>
        simp only [List.length_cons, Nat.succ_le_succ_iff] at hn hm
        simp only [replaceCoreF]
        by_cases h : k.isPrefixOf (c :: rest) = true
        · rw [if_pos h, if_pos h]
          have hd : (List.drop (k.length - 1) rest).length ≤ rest.length := by
            simp only [List.length_drop]; omega
          rw [ih m _ (Nat.le_trans hd hn) (Nat.le_trans hd hm)]
        · rw [if_neg h, if_neg h, ih m rest hn hm]

theorem singlePassF_congr (M : List (List Char × List Char)) :
    ∀ (n m : Nat) (s : List Char), s.length ≤ n → s.length ≤ m →
      singlePassF M n s = singlePassF M m s := by
  intro n
  induction n with
  | zero =>
    intro m s hn _
    have : s = [] := List.length_eq_zero.mp (Nat.le_antisymm hn (Nat.zero_le _))
    subst this
    cases m <;> rfl
  | succ n ih =>
    intro m s hn hm
    cases s with
    | nil => cases m <;> rfl
    | cons c rest =>
      cases m with
      | zero => simp at hm
      | succ m =>
        simp only [List.length_cons, Nat.succ_le_succ_iff] at hn hm
        simp only [singlePassF]
        cases hf : M.find? (fun kv => !kv.1.isEmpty && kv.1.isPrefixOf (c :: rest)) with
        | none => rw [ih m rest hn hm]
        | some kv =>
          have hd : (List.drop (kv.1.length - 1) rest).length ≤ rest.length := by
            simp only [List.length_drop]; omega
          dsimp only
          rw [ih m _ (Nat.le_trans hd hn) (Nat.le_trans hd hm)]

theorem drop_length_le (d : Nat) (rest : List Char) :
    (List.drop d rest).length ≤ rest.length := by
  simp only [List.length_drop]; omega

theorem replaceCore_nil (k v : List Char) : replaceCore k v [] = [] := rfl

theorem replaceCore_cons_pos {k : List Char} {c : Char} {rest : List Char}
    (v : List Char) (h : k.isPrefixOf (c :: rest) = true) :
    replaceCore k v (c :: rest) = v ++ replaceCore k v (List.drop (k.length - 1) rest) := by
  show replaceCoreF k v (c :: rest).length (c :: rest) = _
  simp only [List.length_cons, replaceCoreF, if_pos h]
  exact congrArg (v ++ ·)
    (replaceCoreF_congr k v rest.length _ _ (drop_length_le _ _) (Nat.le_refl _))

theorem replaceCore_cons_neg {k : List Char} {c : Char} {rest : List Char}
    (v : List Char) (h : ¬ k.isPrefixOf (c :: rest) = true) :
    replaceCore k v (c :: rest) = c :: replaceCore k v rest := by
  show replaceCoreF k v (c :: rest).length (c :: rest) = _
  simp only [List.length_cons, replaceCoreF, if_neg h]
  rfl

theorem singlePassSubst_nil (M : List (List Char × List Char)) : singlePassSubst M [] = [] := rfl

theorem singlePassSubst_cons_pos {M : List (List Char × List Char)} {c : Char}
    {rest : List Char} {kv : List Char × List Char}
    (h : M.find? (fun kv => !kv.1.isEmpty && kv.1.isPrefixOf (c :: rest)) = some kv) :
    singlePassSubst M (c :: rest) = kv.2 ++ singlePassSubst M (List.drop (kv.1.length - 1) rest) := by
  show singlePassF M (c :: rest).length (c :: rest) = _
  simp only [List.length_cons, singlePassF, h]
  exact congrArg (kv.2 ++ ·)
    (singlePassF_congr M rest.length _ _ (drop_length_le _ _) (Nat.le_refl _))

theorem singlePassSubst_cons_neg {M : List (List Char × List Char)} {c : Char}
    {rest : List Char}
    (h : M.find? (fun kv => !kv.1.isEmpty && kv.1.isPrefixOf (c :: rest)) = none) :
    singlePassSubst M (c :: rest) = c :: singlePassSubst M rest := by
  show singlePassF M (c :: rest).length (c :: rest) = _
  simp only [List.length_cons, singlePassF, h]
  rfl

example : applyOverrides [(sl "__NAME__", sl "kafka")] (sl "x __NAME__ y") = sl "x kafka y" := by
  decide

example :
    applyOverrides
      [(sl "__NAME__", sl "kafka"), (sl "__BOOTSTRAP_SERVERS__", sl "localhost:9092")]
      (sl "__NAME__ connects to __BOOTSTRAP_SERVERS__")
    = sl "kafka connects to localhost:9092" := by
  decide

example :
    singlePassSubst
      [(sl "__NAME__", sl "kafka"), (sl "__BOOTSTRAP_SERVERS__", sl "localhost:9092")]
      (sl "__NAME__ connects to __BOOTSTRAP_SERVERS__")
    = sl "kafka connects to localhost:9092" := by
  decide

example :
    applyOverrides
      [(sl "__NAME__", sl "__BOOTSTRAP_SERVERS__"), (sl "__BOOTSTRAP_SERVERS__", sl "localhost:9092")]
      (sl "__NAME__") = sl "localhost:9092" := by
  decide

example :
    singlePassSubst
      [(sl "__NAME__", sl "__BOOTSTRAP_SERVERS__"), (sl "__BOOTSTRAP_SERVERS__", sl "localhost:9092")]
      (sl "__NAME__") = sl "__BOOTSTRAP_SERVERS__" := by
  decide

example : pyReplace (sl "ab") [] (sl "x") = sl "xaxbx" := by decide

example : pyReplace (sl "aaa") (sl "aa") (sl "b") = sl "ba" := by decide

/-! ## Support lemmas -/

theorem isPrefixOf_append_self (t r : List Char) : t.isPrefixOf (t ++ r) = true := by
  rw [ List.isPrefixOf_iff_prefix]
  exact List.prefix_append t r

theorem driverFilePath_tmp_prefix (t x s n : List Char) :
    t.isPrefixOf (driverFilePath (join2 t x) s n) = true := by
  show t.isPrefixOf (join2 (join2 (join2 (join2 t x) s) (sl "drivers")) n) = true
  simp only [join2, List.append_assoc, List.cons_append]
  exact isPrefixOf_append_self t _

theorem setup_drivers_writes_prefix (tmpls : List FsEntry) (s t x : List Char)
    (ov : List (List Char × List Char)) :
    ∀ w ∈ (setup_drivers tmpls s (join2 t x) ov).1, t.isPrefixOf w.1 = true := by
  intro w hw
  simp only [setup_drivers, List.mem_map] at hw
  obtain ⟨tm, -, rfl⟩ := hw
  exact driverFilePath_tmp_prefix t x s tm.name

theorem body_writes_under_tmp (root : List Char) (env : Env)
    (dF wF : Option (List (List Char))) (s rd kA hA : List Char) :
    ∀ w ∈ (runScenarioBody root env dF wF s rd kA hA).2.1,
      env.tmpDir.isPrefixOf w.1 = true := by
  intro w hw
  simp only [runScenarioBody] at hw
  split at hw
  · simp at hw
  · split at hw
    · rename_i heq
      simp only [List.mem_append] at hw
      rcases hw with hw | hw
      · exact setup_drivers_writes_prefix _ _ _ _ _ w hw
      · exact setup_drivers_writes_prefix _ _ _ _ _ w hw
    · split at hw
      · simp only [List.mem_append] at hw
        rcases hw with hw | hw
        · exact setup_drivers_writes_prefix _ _ _ _ _ w hw
        · exact setup_drivers_writes_prefix _ _ _ _ _ w hw
      · split at hw
        · split at hw <;>
          · simp only [List.mem_append] at hw
            rcases hw with hw | hw
            · exact setup_drivers_writes_prefix _ _ _ _ _ w hw
            · exact setup_drivers_writes_prefix _ _ _ _ _ w hw
        · simp only [List.mem_append] at hw
          rcases hw with hw | hw
          · exact setup_drivers_writes_prefix _ _ _ _ _ w hw
          · exact setup_drivers_writes_prefix _ _ _ _ _ w hw

/-- C5: after a scenario iteration ends — normally or by failure propagation —
no file of the workspace tree (in particular no rendered driver) still exists:
everything the iteration wrote lies under the `TemporaryDirectory`, which is
removed on every exit path. -/
theorem c5_workspace_removed (root : List Char) (env : Env)
    (dF wF : Option (List (List Char))) (s rd kA hA : List Char) :
    (runScenario root env dF wF s rd kA hA).leftover = [] := by
  show List.filter _ (runScenarioBody root env dF wF s rd kA hA).2.1 = []
  rw [List.filter_eq_nil_iff]
  intro a ha
  simp only [body_writes_under_tmp root env dF wF s rd kA hA a ha, Bool.not_true,
    Bool.false_eq_true, not_false_eq_true]

/-- C9: rendering is deterministic — `setup_drivers` applied twice to equal
inputs produces byte-identical rendered files and paths. -/
theorem c9_render_deterministic (tmpls tmpls' : List FsEntry) (s s' g g' : List Char)
    (ov ov' : List (List Char × List Char))
    (h1 : tmpls = tmpls') (h2 : s = s') (h3 : g = g') (h4 : ov = ov') :
    setup_drivers tmpls s g ov = setup_drivers tmpls' s' g' ov' := by
  subst h1; subst h2; subst h3; subst h4; rfl

theorem c9_render_deterministic_witness :
    setup_drivers [⟨sl "d.yaml", true, sl "__NAME__ x"⟩] (sl "s1") (sl "/w/kafka")
        (kafkaOverrides (sl "k:9092"))
      = setup_drivers [⟨sl "d.yaml", true, sl "__NAME__ x"⟩] (sl "s1") (sl "/w/kafka")
        (kafkaOverrides (sl "k:9092")) :=
  c9_render_deterministic _ _ _ _ _ _ _ _ rfl rfl rfl rfl

/-- C10: a driver or workload filter supplied as an empty list is falsy in
Python, so it is treated exactly like an absent filter: everything is
selected, and the whole scenario iteration behaves identically. -/
theorem c10_empty_filter_selects_all :
    (∀ xs : List FsEntry, selectByName (some []) xs = xs ∧ selectByName none xs = xs)
    ∧ (∀ (root : List Char) (env : Env) (wF : Option (List (List Char)))
        (s rd kA hA : List Char),
        runScenario root env (some []) wF s rd kA hA
          = runScenario root env none wF s rd kA hA)
    ∧ (∀ (root : List Char) (env : Env) (dF : Option (List (List Char)))
        (s rd kA hA : List Char),
        runScenario root env dF (some []) s rd kA hA
          = runScenario root env dF none s rd kA hA) := by
  have hfun : selectByName (some ([] : List (List Char))) = selectByName none := by
    funext xs
    rfl
  refine ⟨fun xs => ⟨rfl, rfl⟩, ?_, ?_⟩
  · intro root env wF s rd kA hA
    unfold runScenario runScenarioBody
    rw [hfun]
  · intro root env dF s rd kA hA
    unfold runScenario runScenarioBody
    rw [hfun]

/-- C7: with a non-empty driver-name filter `F`, the rendered driver files are
exactly those templates whose file name is an exact (case-sensitive) member of
`F`, each rendered at its driver path; and a filter name matching no template
changes nothing (silent ignore, no error, no output). -/
theorem c7_driver_filter_exact (tmpls : List FsEntry) (F : List (List Char)) (hF : F ≠ [])
    (scenario genDir : List Char) (ov : List (List Char × List Char)) :
    ((setup_drivers (selectByName (some F) tmpls) scenario genDir ov).1
      = (tmpls.filter (fun t => decide (t.name ∈ F))).map
          (fun t => (driverFilePath genDir scenario t.name, applyOverrides ov t.content)))
    ∧ (∀ w : List Char × List Char,
        w ∈ (setup_drivers (selectByName (some F) tmpls) scenario genDir ov).1
          ↔ ∃ t ∈ tmpls, t.name ∈ F
              ∧ w = (driverFilePath genDir scenario t.name, applyOverrides ov t.content))
    ∧ ∀ x : List Char, (∀ t ∈ tmpls, ¬ t.name = x) →
        selectByName (some (x :: F)) tmpls = selectByName (some F) tmpls := by
  obtain ⟨f, fs, rfl⟩ : ∃ f fs, F = f :: fs := by
    cases F with
    | nil => exact absurd rfl hF
    | cons f fs => exact ⟨f, fs, rfl⟩
  have heq : (setup_drivers (selectByName (some (f :: fs)) tmpls) scenario genDir ov).1
      = (tmpls.filter (fun t => decide (t.name ∈ f :: fs))).map
          (fun t => (driverFilePath genDir scenario t.name, applyOverrides ov t.content)) := rfl
  refine ⟨heq, ?_, ?_⟩
  · intro w
    rw [heq]
    simp only [List.mem_map, List.mem_filter, decide_eq_true_eq]
    constructor
    · rintro ⟨t, ⟨ht, hname⟩, rfl⟩
      exact ⟨t, ht, hname, rfl⟩
    · rintro ⟨t, ht, hname, rfl⟩
      exact ⟨t, ⟨ht, hname⟩, rfl⟩
  · intro x hx
    show List.filter _ tmpls = List.filter _ tmpls
    apply List.filter_congr
    intro t ht
    simp only [Option.getD_some, List.mem_cons, decide_eq_decide]
    constructor
    · rintro (h | h)
      · exact absurd h (hx t ht)
      · exact h
    · exact fun h => Or.inr h

theorem c7_driver_filter_exact_witness :
    ((sl "a.yaml" :: [sl "zz.yaml"]) ≠ []
      ∧ (setup_drivers
            (selectByName (some [sl "a.yaml", sl "zz.yaml"])
              [⟨sl "a.yaml", true, sl "__NAME__"⟩, ⟨sl "b.yaml", true, sl "x"⟩])
            (sl "s1") (sl "/w/kafka") (kafkaOverrides (sl "k:9092"))).1
          = [(driverFilePath (sl "/w/kafka") (sl "s1") (sl "a.yaml"),
              applyOverrides (kafkaOverrides (sl "k:9092")) (sl "__NAME__"))])
    ∧ (∀ t ∈ [(⟨sl "a.yaml", true, sl "__NAME__"⟩ : FsEntry), ⟨sl "b.yaml", true, sl "x"⟩],
          ¬ t.name = sl "zz.yaml")
      ∧ selectByName (some (sl "zz.yaml" :: [sl "a.yaml", sl "zz.yaml"]))
            [⟨sl "a.yaml", true, sl "__NAME__"⟩, ⟨sl "b.yaml", true, sl "x"⟩]
          = selectByName (some [sl "a.yaml", sl "zz.yaml"])
            [⟨sl "a.yaml", true, sl "__NAME__"⟩, ⟨sl "b.yaml", true, sl "x"⟩] :=
  ⟨⟨by decide,
    ((c7_driver_filter_exact
        [⟨sl "a.yaml", true, sl "__NAME__"⟩, ⟨sl "b.yaml", true, sl "x"⟩]
        [sl "a.yaml", sl "zz.yaml"] (by decide) (sl "s1") (sl "/w/kafka")
        (kafkaOverrides (sl "k:9092"))).1).trans (by decide)⟩,
   by decide,
   (c7_driver_filter_exact
        [⟨sl "a.yaml", true, sl "__NAME__"⟩, ⟨sl "b.yaml", true, sl "x"⟩]
        [sl "a.yaml", sl "zz.yaml"] (by decide) (sl "s1") (sl "/w/kafka")
        (kafkaOverrides (sl "k:9092"))).2.2 (sl "zz.yaml") (by decide)⟩

/-- C8 counterexample: the claim says `get_results` returns exactly the *files*
whose name has the `.json` extension, but `glob` also matches a subdirectory
named `d.json`, which is not a file. -/
theorem c8_counterexample :
    get_results (sl "out") [⟨sl "d.json", false, []⟩]
      ≠ specResultFiles (sl "out") [⟨sl "d.json", false, []⟩] := by
  decide

/-- C8 (amended): for an output directory whose direct entries are all regular
files with names not beginning with a dot, `get_results` returns exactly the
entries with the `.json` extension (full paths, direct children only, empty
list — not a fault — when there are none). -/
theorem c8_results_glob (resultDir : List Char) (listing : List FsEntry)
    (h : ∀ e ∈ listing, e.isFile = true ∧ (sl ".").isPrefixOf e.name = false) :
    get_results resultDir listing = specResultFiles resultDir listing := by
  unfold get_results specResultFiles
  congr 1
  apply List.filter_congr
  intro e he
  rw [(h e he).1, (h e he).2]
  simp

theorem c8_results_glob_witness :
    (∀ e ∈ [(⟨sl "a.json", true, []⟩ : FsEntry), ⟨sl "b.json", true, []⟩,
        ⟨sl "c.txt", true, []⟩],
      e.isFile = true ∧ (sl ".").isPrefixOf e.name = false)
    ∧ get_results (sl "out")
        [⟨sl "a.json", true, []⟩, ⟨sl "b.json", true, []⟩, ⟨sl "c.txt", true, []⟩]
      = specResultFiles (sl "out")
        [⟨sl "a.json", true, []⟩, ⟨sl "b.json", true, []⟩, ⟨sl "c.txt", true, []⟩]
    ∧ get_results (sl "out")
        [⟨sl "a.json", true, []⟩, ⟨sl "b.json", true, []⟩, ⟨sl "c.txt", true, []⟩]
      = [sl "out/a.json", sl "out/b.json"] :=
  ⟨by decide,
   c8_results_glob (sl "out") _ (by decide),
   (c8_results_glob (sl "out") _ (by decide)).trans (by decide)⟩

/-- C3: with a non-empty selected workload list the iteration never reaches the
executor: `" ".join(workloads)` is applied to `os.DirEntry` objects, which
raises `TypeError` after both targets' drivers were rendered; no bench command
is built or invoked. -/
theorem c3_join_type_error :
    runScenario (sl "/bench/scenarios")
        ⟨sl "/tmp/w",
         some [⟨sl "driver.yaml", true, sl "name=__NAME__"⟩],
         some [⟨sl "workload.yaml", true, []⟩], 0, []⟩
        none none (sl "s1") (sl "results") (sl "k:9092") (sl "h:9093")
      = ⟨[Ev.render (sl "/tmp/w/kafka/s1/drivers/driver.yaml") (sl "name=kafka"),
          Ev.render (sl "/tmp/w/hstream/s1/drivers/driver.yaml") (sl "name=hstream-kafka")],
         [], Except.error Err.typeError⟩ := by
  decide

/-- C4 counterexample: with `driver-tmpls` present but `workloads` absent, the
iteration does fail with a file-not-found condition — but only *after* the
drivers of both targets were already rendered, contradicting "aborts before
any rendering occurs for that scenario". -/
theorem c4_counterexample :
    (runScenario (sl "/bench/scenarios")
          ⟨sl "/tmp/w", some [⟨sl "d.yaml", true, sl "__NAME__"⟩], none, 0, []⟩
          none none (sl "s1") (sl "results") (sl "k") (sl "h")).result
        = Except.error (Err.fileNotFound (sl "/bench/scenarios/s1/workloads"))
    ∧ Ev.render (sl "/tmp/w/kafka/s1/drivers/d.yaml") (sl "kafka")
        ∈ (runScenario (sl "/bench/scenarios")
            ⟨sl "/tmp/w", some [⟨sl "d.yaml", true, sl "__NAME__"⟩], none, 0, []⟩
            none none (sl "s1") (sl "results") (sl "k") (sl "h")).events := by
  decide

/-- C4 (amended): a missing `driver-tmpls` directory aborts the iteration with
a file-not-found error before any rendering; a missing `workloads` directory
aborts with a file-not-found error before the executor invocation, but only
after the drivers of both targets were rendered. -/
theorem c4_missing_dirs (root : List Char) (env : Env)
    (dF wF : Option (List (List Char))) (s rd kA hA : List Char) :
    (env.driverTmplListing = none →
      (runScenario root env dF wF s rd kA hA).events = []
      ∧ (runScenario root env dF wF s rd kA hA).result
          = Except.error (Err.fileNotFound (join2 (join2 root s) (sl "driver-tmpls"))))
    ∧ (∀ dl, env.driverTmplListing = some dl → env.workloadListing = none →
      (runScenario root env dF wF s rd kA hA).result
          = Except.error (Err.fileNotFound (join2 (join2 root s) (sl "workloads")))
      ∧ ∀ cmd, Ev.runBench cmd ∉ (runScenario root env dF wF s rd kA hA).events) := by
  constructor
  · intro h
    unfold runScenario runScenarioBody
    rw [h]
    exact ⟨rfl, rfl⟩
  · intro dl h1 h2
    unfold runScenario runScenarioBody
    rw [h1, h2]
    refine ⟨rfl, ?_⟩
    intro cmd hcmd
    simp only [get_driver_tmpls, get_workloads, List.mem_map] at hcmd
    obtain ⟨w, -, habs⟩ := hcmd
    exact Ev.noConfusion habs

theorem c4_missing_dirs_witness :
    ((runScenario (sl "/r") ⟨sl "/t", none, none, 0, []⟩ none none (sl "s")
          (sl "o") (sl "k") (sl "h")).events = []
      ∧ (runScenario (sl "/r") ⟨sl "/t", none, none, 0, []⟩ none none (sl "s")
          (sl "o") (sl "k") (sl "h")).result
        = Except.error (Err.fileNotFound (join2 (join2 (sl "/r") (sl "s")) (sl "driver-tmpls"))))
    ∧ ((runScenario (sl "/r") ⟨sl "/t", some [⟨sl "d", true, []⟩], none, 0, []⟩ none none
          (sl "s") (sl "o") (sl "k") (sl "h")).result
        = Except.error (Err.fileNotFound (join2 (join2 (sl "/r") (sl "s")) (sl "workloads")))
      ∧ ∀ cmd, Ev.runBench cmd ∉ (runScenario (sl "/r")
          ⟨sl "/t", some [⟨sl "d", true, []⟩], none, 0, []⟩ none none
          (sl "s") (sl "o") (sl "k") (sl "h")).events) :=
  ⟨(c4_missing_dirs (sl "/r") ⟨sl "/t", none, none, 0, []⟩ none none (sl "s")
      (sl "o") (sl "k") (sl "h")).1 rfl,
   (c4_missing_dirs (sl "/r") ⟨sl "/t", some [⟨sl "d", true, []⟩], none, 0, []⟩ none none
      (sl "s") (sl "o") (sl "k") (sl "h")).2 [⟨sl "d", true, []⟩] rfl rfl⟩

/-- C6: if the executor invocation happens and exits non-zero, `get_results`
is never reached for that scenario (no collect event), the iteration
propagates `CalledProcessError`, the loop processes no further scenario, and
the process exit status is non-zero. -/
theorem c6_nonzero_exit_aborts (root : List Char) (env : Env)
    (dF wF : Option (List (List Char))) (s rd kA hA : List Char)
    (rest : List (List Char × Env))
    (hrun : ∃ cmd, Ev.runBench cmd ∈ (runScenario root env dF wF s rd kA hA).events)
    (hexit : ¬ env.benchExitCode = 0) :
    (∀ d, Ev.collect d ∉ (runScenario root env dF wF s rd kA hA).events)
    ∧ (runScenario root env dF wF s rd kA hA).result
        = Except.error (Err.calledProcessError env.benchExitCode)
    ∧ runAll root dF wF rd kA hA ((s, env) :: rest)
        = ((runScenario root env dF wF s rd kA hA).events,
           Except.error (Err.calledProcessError env.benchExitCode))
    ∧ processExit (runAll root dF wF rd kA hA ((s, env) :: rest)).2 = 1 := by
  obtain ⟨cmd, hcmd⟩ := hrun
  have hbody : (runScenarioBody root env dF wF s rd kA hA).1
        = (runScenarioBody root env dF wF s rd kA hA).1 := rfl
  cases hdl : env.driverTmplListing with
  | none =>
    exfalso
    simp only [runScenario, runScenarioBody, get_driver_tmpls, hdl] at hcmd
    simp at hcmd
  | some dl =>
    cases hwl : env.workloadListing with
    | none =>
      exfalso
      simp only [runScenario, runScenarioBody, get_driver_tmpls, get_workloads, hdl, hwl,
        List.mem_map] at hcmd
      obtain ⟨w, -, habs⟩ := hcmd
      exact Ev.noConfusion habs
    | some wl =>
      cases hjw : joinWorkloadEntries
          (selectByName wF (List.filter (fun e => e.isFile) wl)) with
      | error e =>
        exfalso
        simp only [runScenario, runScenarioBody, get_driver_tmpls, get_workloads, hdl, hwl,
          hjw, List.mem_map] at hcmd
        obtain ⟨w, -, habs⟩ := hcmd
        exact Ev.noConfusion habs
      | ok cw =>
        have hout : runScenarioBody root env dF wF s rd kA hA
            = (let tmpls := selectByName dF (List.filter (fun e => e.isFile) dl)
               let kafka := setup_drivers tmpls s (join2 env.tmpDir (sl "kafka"))
                  (kafkaOverrides kA)
               let hstream := setup_drivers tmpls s (join2 env.tmpDir (sl "hstream"))
                  (hstreamOverrides hA)
               let writes := kafka.1 ++ hstream.1
               let renderEvs := writes.map (fun w => Ev.render w.1 w.2)
               (renderEvs
                  ++ [Ev.runBench (sl "bin/benchmark -d "
                        ++ List.intercalate (sl ",") (kafka.2 ++ hstream.2)
                        ++ sl " -od " ++ join2 rd s ++ sl " " ++ cw)],
                writes, Except.error (Err.calledProcessError env.benchExitCode))) := by
          simp only [runScenarioBody, get_driver_tmpls, get_workloads, hdl, hwl, hjw,
            if_neg hexit]
        have hres : (runScenario root env dF wF s rd kA hA).result
            = Except.error (Err.calledProcessError env.benchExitCode) := by
          simp only [runScenario, hout]
        have hall : runAll root dF wF rd kA hA ((s, env) :: rest)
            = ((runScenario root env dF wF s rd kA hA).events,
               Except.error (Err.calledProcessError env.benchExitCode)) := by
          simp only [runAll, hres]
        refine ⟨?_, hres, hall, ?_⟩
        · intro d hd
          simp only [runScenario, hout, List.mem_append, List.mem_map,
            List.mem_singleton] at hd
          rcases hd with ⟨w, -, habs⟩ | habs
          · exact Ev.noConfusion habs
          · exact Ev.noConfusion habs
        · rw [hall]
          rfl

theorem c6_nonzero_exit_aborts_witness :
    (∃ cmd, Ev.runBench cmd ∈ (runScenario (sl "/r")
        ⟨sl "/t", some [], some [], 1, []⟩ none none (sl "s") (sl "o") (sl "k")
        (sl "h")).events)
    ∧ ¬ (1 : Int) = 0
    ∧ ((∀ d, Ev.collect d ∉ (runScenario (sl "/r") ⟨sl "/t", some [], some [], 1, []⟩
          none none (sl "s") (sl "o") (sl "k") (sl "h")).events)
      ∧ (runScenario (sl "/r") ⟨sl "/t", some [], some [], 1, []⟩ none none (sl "s")
          (sl "o") (sl "k") (sl "h")).result
        = Except.error (Err.calledProcessError 1)
      ∧ runAll (sl "/r") none none (sl "o") (sl "k") (sl "h")
          [(sl "s", ⟨sl "/t", some [], some [], 1, []⟩), (sl "s2", ⟨sl "/t2", some [], some [], 0, []⟩)]
        = ((runScenario (sl "/r") ⟨sl "/t", some [], some [], 1, []⟩ none none (sl "s")
            (sl "o") (sl "k") (sl "h")).events,
           Except.error (Err.calledProcessError 1))
      ∧ processExit (runAll (sl "/r") none none (sl "o") (sl "k") (sl "h")
          [(sl "s", ⟨sl "/t", some [], some [], 1, []⟩), (sl "s2", ⟨sl "/t2", some [], some [], 0, []⟩)]).2
        = 1) :=
  ⟨⟨sl "bin/benchmark -d  -od o/s ", by decide⟩, by decide,
   c6_nonzero_exit_aborts (sl "/r") ⟨sl "/t", some [], some [], 1, []⟩ none none (sl "s")
     (sl "o") (sl "k") (sl "h") [(sl "s2", ⟨sl "/t2", some [], some [], 0, []⟩)]
     ⟨sl "bin/benchmark -d  -od o/s ", by decide⟩ (by decide)⟩

/-- C1 counterexample: rendering is *not* a single conceptual pass.  With the
override map `{__NAME__: "__BOOTSTRAP_SERVERS__", __BOOTSTRAP_SERVERS__:
"localhost:9092"}` on the template `"__NAME__"`, the sequential per-key
replacement the code performs differs from the spec's single-pass
substitution. -/
theorem c1_counterexample :
    applyOverrides
        [(sl "__NAME__", sl "__BOOTSTRAP_SERVERS__"),
         (sl "__BOOTSTRAP_SERVERS__", sl "localhost:9092")]
        (sl "__NAME__")
      ≠ singlePassSubst
        [(sl "__NAME__", sl "__BOOTSTRAP_SERVERS__"),
         (sl "__BOOTSTRAP_SERVERS__", sl "localhost:9092")]
        (sl "__NAME__") := by
  decide

/-- C1 (amended): rendering applies each override in turn with `str.replace`
(dict insertion order), so a value inserted for one token *is* subsequently
re-scanned and replaced for a later token's key when it textually contains
that key: here the inserted `"__BOOTSTRAP_SERVERS__"` is replaced again,
whereas the spec's single pass would leave it. -/
theorem c1_sequential_rescans :
    applyOverrides
        [(sl "__NAME__", sl "__BOOTSTRAP_SERVERS__"),
         (sl "__BOOTSTRAP_SERVERS__", sl "localhost:9092")]
        (sl "__NAME__") = sl "localhost:9092"
    ∧ singlePassSubst
        [(sl "__NAME__", sl "__BOOTSTRAP_SERVERS__"),
         (sl "__BOOTSTRAP_SERVERS__", sl "localhost:9092")]
        (sl "__NAME__") = sl "__BOOTSTRAP_SERVERS__" := by
  decide

/-- C2 counterexample: the keys `"__NAME__"` and `"kafka"` are distinct,
neither is a substring of the other, and their occurrences in the template
`"__NAME__"` are trivially disjoint — yet the rendered content is not the
template with every key (simultaneously) replaced, because the value inserted
for `__NAME__` is itself the key `kafka` and gets replaced again. -/
theorem c2_counterexample :
    applyOverrides [(sl "__NAME__", sl "kafka"), (sl "kafka", sl "oops")] (sl "__NAME__")
      ≠ singlePassSubst [(sl "__NAME__", sl "kafka"), (sl "kafka", sl "oops")]
          (sl "__NAME__") := by
  decide

theorem occ_lt {k T : List Char} {n : Nat} (hk : k ≠ [])
    (h : k.isPrefixOf (List.drop n T) = true) : n < T.length := by
  by_contra hn
  push_neg at hn
  rw [List.drop_eq_nil_of_le hn, List.isPrefixOf_iff_prefix, List.prefix_nil] at h
  exact hk h

theorem safe_of_safeB (M : List (List Char × List Char)) (T : List Char)
    (h : safeB M T = true) : Safe M T := by
  rw [safeB, Bool.and_eq_true, Bool.and_eq_true] at h
  obtain ⟨⟨h1, h2⟩, h3⟩ := h
  have hkeys : ∀ p ∈ M, p.1 ≠ [] ∧ p.2 ≠ [] := by
    intro p hp
    have := List.all_eq_true.mp h1 p hp
    rw [Bool.and_eq_true] at this
    obtain ⟨ha, hb⟩ := this
    constructor
    · intro he
      rw [he] at ha
      simp at ha
    · intro he
      rw [he] at hb
      simp at hb
  refine ⟨hkeys, ?_, ?_⟩
  · intro p hp q hq c hc
    have := List.all_eq_true.mp (List.all_eq_true.mp (List.all_eq_true.mp h2 p hp) q hq) c hc
    simpa using this
  · intro p hp q hq n m hOp hOq hne2
    have hn := occ_lt (hkeys p hp).1 hOp
    have hm := occ_lt (hkeys q hq).1 hOq
    have := List.all_eq_true.mp (List.all_eq_true.mp
        (List.all_eq_true.mp (List.all_eq_true.mp h3 n (List.mem_range.mpr hn)) m
          (List.mem_range.mpr hm)) p hp) q hq
    simp only [Bool.or_eq_true, Bool.and_eq_true, Bool.not_eq_true',
      decide_eq_true_eq] at this
    rcases this with (((h' | h') | h') | h') | h'
    · rw [hOp] at h'
      cases h'
    · rw [hOq] at h'
      cases h'
    · rcases hne2 with hh | hh
      · exact absurd h'.1 hh
      · exact absurd h'.2 hh
    · exact Or.inl h'
    · exact Or.inr h'

theorem nonOverlap_drop {M : List (List Char × List Char)} {T : List Char}
    (h : NonOverlap M T) (d : Nat) : NonOverlap M (List.drop d T) := by
  intro p hp q hq n m hOp hOq hne2
  rw [List.drop_drop] at hOp hOq
  have hne3 : p ≠ q ∨ d + n ≠ d + m := by
    rcases hne2 with h' | h'
    · exact Or.inl h'
    · exact Or.inr (by omega)
  have := h p hp q hq (d + n) (d + m) hOp hOq hne3
  omega

theorem safe_drop {M : List (List Char × List Char)} {T : List Char}
    (h : Safe M T) (d : Nat) : Safe M (List.drop d T) :=
  ⟨h.1, h.2.1, nonOverlap_drop h.2.2 d⟩

theorem safe_cons_elim {x : List Char × List Char} {M : List (List Char × List Char)}
    {T : List Char} (h : Safe (x :: M) T) : Safe M T :=
  ⟨fun p hp => h.1 p (List.mem_cons_of_mem _ hp),
   fun p hp q hq => h.2.1 p (List.mem_cons_of_mem _ hp) q (List.mem_cons_of_mem _ hq),
   fun p hp q hq => h.2.2 p (List.mem_cons_of_mem _ hp) q (List.mem_cons_of_mem _ hq)⟩

theorem list_length_induction {P : List Char → Prop}
    (ind : ∀ s : List Char, (∀ t : List Char, t.length < s.length → P t) → P s) :
    ∀ s, P s := by
  intro s
  have H : ∀ n, ∀ t : List Char, t.length ≤ n → P t := by
    intro n
    induction n with
    | zero =>
      intro t ht
      exact ind t (fun u hu => absurd (Nat.lt_of_lt_of_le hu ht) (Nat.not_lt_zero _))
    | succ n ihn =>
      intro t ht
      exact ind t (fun u hu => ihn u (Nat.le_of_lt_succ (Nat.lt_of_lt_of_le hu ht)))
  exact H s.length s (Nat.le_refl _)

/-- A list sharing no character with the inserted value `v` that is a prefix
of the replacement result was already a prefix of the original string. -/
theorem prefix_reflect {k v : List Char} (hv : v ≠ []) {u : List Char}
    (hu : ∀ c ∈ u, c ∉ v) : ∀ {T : List Char}, u <+: replaceCore k v T → u <+: T := by
  intro T
  induction T generalizing u with
  | nil =>
    intro h
    rw [replaceCore_nil, List.prefix_nil] at h
    rw [h]
  | cons c rest ih =>
    intro h
    by_cases hk : k.isPrefixOf (c :: rest) = true
    · rw [replaceCore_cons_pos v hk] at h
      cases u with
      | nil => exact List.nil_prefix
      | cons u0 u' =>
        obtain ⟨v0, v', rfl⟩ := List.exists_cons_of_ne_nil hv
        rw [List.cons_append, List.cons_prefix_cons] at h
        exact absurd (h.1 ▸ List.mem_cons_self u0 u' :  u0 ∈ u0 :: u')
          (fun hm => hu u0 hm (h.1 ▸ List.mem_cons_self v0 v'))
    · rw [replaceCore_cons_neg v hk] at h
      cases u with
      | nil => exact List.nil_prefix
      | cons u0 u' =>
        rw [List.cons_prefix_cons] at h ⊢
        exact ⟨h.1, ih (fun c hc => hu c (List.mem_cons_of_mem _ hc)) h.2⟩

theorem prefix_reflect_append {k v : List Char} (hv : v ≠ []) {u : List Char}
    (hu : ∀ c ∈ u, c ∉ v) {A B : List Char}
    (h : u <+: A ++ replaceCore k v B) : u <+: A ++ B := by
  by_cases hlen : u.length ≤ A.length
  · have hA : u <+: A :=
      List.prefix_of_prefix_length_le h (List.prefix_append _ _) hlen
    exact hA.trans (List.prefix_append A B)
  · push_neg at hlen
    have hA : A <+: u :=
      List.prefix_of_prefix_length_le (List.prefix_append _ _) h (Nat.le_of_lt hlen)
    obtain ⟨w, rfl⟩ := hA
    rw [ List.prefix_append_right_inj] at h ⊢
    exact prefix_reflect hv (fun c hc => hu c (List.mem_append_right A hc)) h

/-- If the pattern has no match at any position below `d`, replacement leaves
the first `d` characters untouched. -/
theorem replaceCore_no_match_take {k v : List Char} :
    ∀ (d : Nat) (T : List Char),
      (∀ p, p < d → ¬ k.isPrefixOf (List.drop p T) = true) →
      replaceCore k v T = List.take d T ++ replaceCore k v (List.drop d T) := by
  intro d
  induction d with
  | zero => intro T _; simp
  | succ d ih =>
    intro T h
    cases T with
    | nil => simp [replaceCore_nil]
    | cons c rest =>
      have h0 : ¬ k.isPrefixOf (c :: rest) = true := by
        have := h 0 (Nat.succ_pos d)
        simpa using this
      rw [replaceCore_cons_neg v h0, List.take_succ_cons, List.drop_succ_cons,
        List.cons_append]
      congr 1
      apply ih
      intro p hp
      have := h (p + 1) (by omega)
      rwa [List.drop_succ_cons] at this

theorem find?_unique {α : Type} {p : α → Bool} {x : α} :
    ∀ {l : List α}, x ∈ l → p x = true → (∀ y ∈ l, p y = true → y = x) →
      l.find? p = some x := by
  intro l
  induction l with
  | nil => intro hx; cases hx
  | cons a l ih =>
    intro hx hpx huniq
    by_cases ha : p a = true
    · rw [List.find?_cons_of_pos _ ha, huniq a (List.mem_cons_self _ _) ha]
    · rw [List.find?_cons_of_neg _ ha]
      have hxl : x ∈ l := by
        rcases List.mem_cons.mp hx with h | h
        · exact absurd (h ▸ hpx) ha
        · exact h
      exact ih hxl hpx (fun y hy => huniq y (List.mem_cons_of_mem _ hy))

/-- Scanning a region whose characters occur in no key emits it unchanged. -/
theorem singlePass_append_fresh {M : List (List Char × List Char)} :
    ∀ {u : List Char}, (∀ c ∈ u, ∀ q ∈ M, c ∉ q.1) → ∀ (X : List Char),
      singlePassSubst M (u ++ X) = u ++ singlePassSubst M X := by
  intro u
  induction u with
  | nil => intro _ X; simp
  | cons c u' ih =>
    intro hu X
    have hnone : M.find? (fun kv => !kv.1.isEmpty && kv.1.isPrefixOf (c :: (u' ++ X)))
        = none := by
      rw [List.find?_eq_none]
      intro kv hkv habs
      rw [Bool.and_eq_true] at habs
      obtain ⟨hne', hpre⟩ := habs
      rw [ List.isPrefixOf_iff_prefix] at hpre
      obtain ⟨k0, ktl, hk1⟩ : ∃ k0 ktl, kv.1 = k0 :: ktl := by
        cases hkv1 : kv.1 with
        | nil => rw [hkv1] at hne'; simp at hne'
        | cons k0 ktl => exact ⟨k0, ktl, rfl⟩
      rw [hk1, List.cons_prefix_cons] at hpre
      exact hu c (List.mem_cons_self _ _) kv hkv (hk1 ▸ (hpre.1 ▸ List.mem_cons_self k0 ktl))
    rw [List.cons_append, singlePassSubst_cons_neg hnone,
      ih (fun c hc => hu c (List.mem_cons_of_mem _ hc)) X, List.cons_append]

theorem singlePass_nil_overrides : ∀ T : List Char, singlePassSubst [] T = T := by
  intro T
  induction T with
  | nil => rfl
  | cons c rest ih =>
    rw [singlePassSubst_cons_neg List.find?_nil, ih]

/-- Variant of the positive scan equation consuming the whole match from the
full string. -/
theorem singlePassSubst_pos' {M : List (List Char × List Char)} {s : List Char}
    {kv : List Char × List Char} (hs : s ≠ [])
    (h : M.find? (fun kv => !kv.1.isEmpty && kv.1.isPrefixOf s) = some kv) :
    singlePassSubst M s = kv.2 ++ singlePassSubst M (List.drop kv.1.length s) := by
  obtain ⟨c, rest, rfl⟩ := List.exists_cons_of_ne_nil hs
  rw [singlePassSubst_cons_pos h]
  have hkvne : kv.1 ≠ [] := by
    have := List.find?_some h
    rw [Bool.and_eq_true] at this
    intro he
    rw [he] at this
    simp at this
  obtain ⟨k0, ktl, hk1⟩ := List.exists_cons_of_ne_nil hkvne
  rw [hk1]
  simp [List.drop_succ_cons]

theorem key_avoids_value {M : List (List Char × List Char)} (hfresh : ValueCharsFresh M)
    {kv r : List Char × List Char} (hkv : kv ∈ M) (hr : r ∈ M) :
    ∀ c ∈ r.1, c ∉ kv.2 :=
  fun c hc hcv => hfresh kv hkv r hr c hcv hc

theorem drop_append_ge {a b : List Char} {i : Nat} (h : a.length ≤ i) :
    List.drop i (a ++ b) = List.drop (i - a.length) b := by
  conv_lhs => rw [show i = a.length + (i - a.length) from by omega]
  rw [← List.drop_drop, List.drop_left]

/-- If an occurrence of a key of `M'` starts at position `0` of the
replacement result and another occurrence starts at a positive position `m`,
the first occurrence ends before `m`. -/
theorem occ_zero_bound {k v : List Char} {M' : List (List Char × List Char)} {T : List Char}
    (hsafe : Safe ((k, v) :: M') T) (hknot : ¬ k.isPrefixOf T = true)
    {p q : List Char × List Char} (hp : p ∈ M') (hq : q ∈ M')
    {m : Nat} (hm : 1 ≤ m)
    (hp0 : p.1.isPrefixOf (replaceCore k v T) = true)
    (hqm : q.1.isPrefixOf (List.drop m (replaceCore k v T)) = true) :
    p.1.length ≤ m := by
  obtain ⟨hne, hfresh, hnov⟩ := hsafe
  have hkv_mem : (k, v) ∈ (k, v) :: M' := List.mem_cons_self _ _
  have hvne : v ≠ [] := (hne (k, v) hkv_mem).2
  have hkne : k ≠ [] := (hne (k, v) hkv_mem).1
  have hp_mem : p ∈ (k, v) :: M' := List.mem_cons_of_mem _ hp
  have hq_mem : q ∈ (k, v) :: M' := List.mem_cons_of_mem _ hq
  have hp1ne : p.1 ≠ [] := (hne p hp_mem).1
  have hq1ne : q.1 ≠ [] := (hne q hq_mem).1
  have hpT : p.1 <+: T :=
    prefix_reflect hvne (key_avoids_value hfresh hkv_mem hp_mem)
      (List.isPrefixOf_iff_prefix.mp hp0)
  by_contra hlt
  push_neg at hlt
  have hpTocc : p.1.isPrefixOf (List.drop 0 T) = true := by
    rw [List.drop_zero]
    exact List.isPrefixOf_iff_prefix.mpr hpT
  have hpk : p ≠ (k, v) := by
    intro he
    apply hknot
    have hkT : p.1 <+: T := hpT
    rw [he] at hkT
    exact List.isPrefixOf_iff_prefix.mpr hkT
  have hnomatch : ∀ j, j < p.1.length → ¬ k.isPrefixOf (List.drop j T) = true := by
    intro j hj habs
    have hklen : 0 < k.length := List.length_pos.mpr hkne
    have := hnov p hp_mem (k, v) hkv_mem 0 j hpTocc habs (Or.inl hpk)
    dsimp only at this
    omega
  have hdecomp := replaceCore_no_match_take (k := k) (v := v) p.1.length T hnomatch
  have hlenT : p.1.length ≤ T.length := hpT.length_le
  have hminT : (List.take p.1.length T).length = p.1.length := by
    simp only [List.length_take]
    omega
  have hdropm : List.drop m (replaceCore k v T)
      = List.drop m (List.take p.1.length T)
          ++ replaceCore k v (List.drop p.1.length T) := by
    rw [hdecomp]
    exact List.drop_append_of_le_length (by rw [hminT]; omega)
  have hAB : List.drop m (List.take p.1.length T) ++ List.drop p.1.length T
      = List.drop m T := by
    conv_rhs => rw [← List.take_append_drop p.1.length T]
    rw [List.drop_append_of_le_length (by rw [hminT]; omega)]
  have hq' : q.1 <+: List.drop m T := by
    have h1 := List.isPrefixOf_iff_prefix.mp hqm
    rw [hdropm] at h1
    have h2 := prefix_reflect_append hvne
      (key_avoids_value hfresh hkv_mem hq_mem) h1
    rwa [hAB] at h2
  have := hnov p hp_mem q hq_mem 0 m hpTocc
    (List.isPrefixOf_iff_prefix.mpr hq') (Or.inr (by omega))
  have hqlen : 0 < q.1.length := List.length_pos.mpr hq1ne
  omega

/-- Replacing a key of a `Safe` override list preserves non-overlap of the
remaining keys' occurrences. -/
theorem nonOverlap_replace {k v : List Char} {M' : List (List Char × List Char)} :
    ∀ T : List Char, Safe ((k, v) :: M') T → NonOverlap M' (replaceCore k v T) := by
  apply list_length_induction
      (P := fun T => Safe ((k, v) :: M') T → NonOverlap M' (replaceCore k v T))
  intro T IH hsafe
  have hne := hsafe.1
  have hfresh := hsafe.2.1
  have hnov := hsafe.2.2
  have hkv_mem : (k, v) ∈ (k, v) :: M' := List.mem_cons_self _ _
  have hkne : k ≠ [] := (hne (k, v) hkv_mem).1
  have hvne : v ≠ [] := (hne (k, v) hkv_mem).2
  intro p hp q hq n m hOp hOq hpq
  have hp_mem : p ∈ (k, v) :: M' := List.mem_cons_of_mem _ hp
  have hq_mem : q ∈ (k, v) :: M' := List.mem_cons_of_mem _ hq
  have hp1ne : p.1 ≠ [] := (hne p hp_mem).1
  have hq1ne : q.1 ≠ [] := (hne q hq_mem).1
  cases T with
  | nil =>
    exfalso
    rw [replaceCore_nil, List.drop_nil] at hOp
    rw [List.isPrefixOf_iff_prefix, List.prefix_nil] at hOp
    exact hp1ne hOp
  | cons c rest =>
    by_cases hk : k.isPrefixOf (c :: rest) = true
    · rw [replaceCore_cons_pos v hk] at hOp hOq
      have hstart : ∀ r ∈ M', ∀ i : Nat,
          r.1.isPrefixOf (List.drop i
            (v ++ replaceCore k v (List.drop (k.length - 1) rest))) = true →
          v.length ≤ i := by
        intro r hr i hri
        by_contra hi
        push_neg at hi
        rw [List.drop_append_of_le_length (Nat.le_of_lt hi)] at hri
        have hvd : List.drop i v ≠ [] := by
          intro he
          have := congrArg List.length he
          simp only [List.length_drop, List.length_nil] at this
          omega
        obtain ⟨d0, dtl, hd⟩ := List.exists_cons_of_ne_nil hvd
        have hr1ne : r.1 ≠ [] := (hne r (List.mem_cons_of_mem _ hr)).1
        obtain ⟨r0, rtl, hr1⟩ := List.exists_cons_of_ne_nil hr1ne
        rw [List.isPrefixOf_iff_prefix, hd, hr1, List.cons_append,
          List.cons_prefix_cons] at hri
        have hd0v : d0 ∈ v := List.mem_of_mem_drop (hd ▸ List.mem_cons_self d0 dtl)
        have hr0r : r0 ∈ r.1 := hr1 ▸ List.mem_cons_self r0 rtl
        exact hfresh (k, v) hkv_mem r (List.mem_cons_of_mem _ hr) d0 hd0v (hri.1 ▸ hr0r)
      have hn := hstart p hp n hOp
      have hm := hstart q hq m hOq
      rw [drop_append_ge hn] at hOp
      rw [drop_append_ge hm] at hOq
      have hdropT : List.drop (k.length - 1) rest = List.drop k.length (c :: rest) := by
        obtain ⟨k0, ktl, rfl⟩ := List.exists_cons_of_ne_nil hkne
        simp [List.drop_succ_cons]
      have hIH := IH (List.drop (k.length - 1) rest)
        (by simp only [List.length_drop, List.length_cons]; omega)
        (by rw [hdropT]; exact safe_drop hsafe k.length)
      have hcond : p ≠ q ∨ n - v.length ≠ m - v.length := by
        rcases hpq with h' | h'
        · exact Or.inl h'
        · exact Or.inr (by omega)
      have := hIH p hp q hq (n - v.length) (m - v.length) hOp hOq hcond
      omega
    · cases n with
      | zero =>
        cases m with
        | zero =>
          exfalso
          have hpq' : p ≠ q := by
            rcases hpq with h' | h'
            · exact h'
            · exact absurd rfl h'
          rw [List.drop_zero] at hOp hOq
          have hpT : p.1 <+: c :: rest :=
            prefix_reflect hvne (key_avoids_value hfresh hkv_mem hp_mem)
              (List.isPrefixOf_iff_prefix.mp hOp)
          have hqT : q.1 <+: c :: rest :=
            prefix_reflect hvne (key_avoids_value hfresh hkv_mem hq_mem)
              (List.isPrefixOf_iff_prefix.mp hOq)
          have := hnov p hp_mem q hq_mem 0 0
            (by rw [List.drop_zero]; exact List.isPrefixOf_iff_prefix.mpr hpT)
            (by rw [List.drop_zero]; exact List.isPrefixOf_iff_prefix.mpr hqT)
            (Or.inl hpq')
          have h1 : 0 < p.1.length := List.length_pos.mpr hp1ne
          have h2 : 0 < q.1.length := List.length_pos.mpr hq1ne
          omega
        | succ m' =>
          have hb : p.1.length ≤ m' + 1 := by
            apply occ_zero_bound ⟨hne, hfresh, hnov⟩ hk hp hq (by omega)
            · rw [List.drop_zero] at hOp
              exact hOp
            · exact hOq
          omega
      | succ n' =>
        cases m with
        | zero =>
          have hb : q.1.length ≤ n' + 1 := by
            apply occ_zero_bound ⟨hne, hfresh, hnov⟩ hk hq hp (by omega)
            · rw [List.drop_zero] at hOq
              exact hOq
            · exact hOp
          omega
        | succ m' =>
          rw [replaceCore_cons_neg v hk, List.drop_succ_cons] at hOp hOq
          have hsafe' : Safe ((k, v) :: M') rest := by
            have := safe_drop hsafe 1
            simpa using this
          have hcond : p ≠ q ∨ n' ≠ m' := by
            rcases hpq with h' | h'
            · exact Or.inl h'
            · exact Or.inr (by omega)
          have := IH rest (by simp) hsafe' p hp q hq n' m' hOp hOq hcond
          omega

/-- One sequential replacement step commutes with the single-pass scan under
the `Safe` hypotheses. -/
theorem singlePass_replace_step {k v : List Char} {M' : List (List Char × List Char)} :
    ∀ T : List Char, Safe ((k, v) :: M') T →
      singlePassSubst ((k, v) :: M') T = singlePassSubst M' (replaceCore k v T) := by
  apply list_length_induction
      (P := fun T => Safe ((k, v) :: M') T →
        singlePassSubst ((k, v) :: M') T = singlePassSubst M' (replaceCore k v T))
  intro T IH hsafe
  have hne := hsafe.1
  have hfresh := hsafe.2.1
  have hnov := hsafe.2.2
  have hkv_mem : (k, v) ∈ (k, v) :: M' := List.mem_cons_self _ _
  have hkne : k ≠ [] := (hne (k, v) hkv_mem).1
  have hvne : v ≠ [] := (hne (k, v) hkv_mem).2
  have hkE : k.isEmpty = false := by
    cases k with
    | nil => exact absurd rfl hkne
    | cons a l => rfl
  cases T with
  | nil => rw [replaceCore_nil, singlePassSubst_nil, singlePassSubst_nil]
  | cons c rest =>
    have hdropT : List.drop (k.length - 1) rest = List.drop k.length (c :: rest) := by
      obtain ⟨k0, ktl, rfl⟩ := List.exists_cons_of_ne_nil hkne
      simp [List.drop_succ_cons]
    by_cases hk : k.isPrefixOf (c :: rest) = true
    · have hfind : ((k, v) :: M').find?
          (fun kv => !kv.1.isEmpty && kv.1.isPrefixOf (c :: rest)) = some (k, v) :=
        List.find?_cons_of_pos _ (by simp [hkE, hk])
      rw [singlePassSubst_cons_pos hfind]
      rw [replaceCore_cons_pos v hk]
      rw [singlePass_append_fresh
          (fun c0 hc0 q hq => hfresh (k, v) hkv_mem q (List.mem_cons_of_mem _ hq) c0 hc0) _]
      congr 1
      exact IH (List.drop (k.length - 1) rest)
        (by simp only [List.length_drop, List.length_cons]; omega)
        (by rw [hdropT]; exact safe_drop hsafe k.length)
    · have hfind2 : ((k, v) :: M').find?
            (fun kv => !kv.1.isEmpty && kv.1.isPrefixOf (c :: rest))
          = M'.find? (fun kv => !kv.1.isEmpty && kv.1.isPrefixOf (c :: rest)) :=
        List.find?_cons_of_neg _ (by simp [hk])
      cases hf : M'.find? (fun kv => !kv.1.isEmpty && kv.1.isPrefixOf (c :: rest)) with
      | none =>
        rw [singlePassSubst_cons_neg (hfind2.trans hf)]
        rw [replaceCore_cons_neg v hk]
        have hnone2 : M'.find?
            (fun kv => !kv.1.isEmpty && kv.1.isPrefixOf (c :: replaceCore k v rest))
            = none := by
          rw [List.find?_eq_none]
          intro r hr habs
          rw [Bool.and_eq_true] at habs
          obtain ⟨hne2, hpre⟩ := habs
          have hrT : r.1 <+: c :: rest := by
            apply prefix_reflect hvne
              (key_avoids_value hfresh hkv_mem (List.mem_cons_of_mem _ hr))
            rw [replaceCore_cons_neg v hk]
            exact List.isPrefixOf_iff_prefix.mp hpre
          exact (List.find?_eq_none.mp hf r hr)
            (by rw [Bool.and_eq_true]
                exact ⟨hne2, List.isPrefixOf_iff_prefix.mpr hrT⟩)
        rw [singlePassSubst_cons_neg hnone2]
        congr 1
        exact IH rest (by simp)
          (by have := safe_drop hsafe 1; simpa using this)
      | some r =>
        have hrmem : r ∈ M' := List.mem_of_find?_eq_some hf
        have hr_mem : r ∈ (k, v) :: M' := List.mem_cons_of_mem _ hrmem
        have hpred := List.find?_some hf
        rw [Bool.and_eq_true] at hpred
        obtain ⟨hrne2, hrpre2⟩ := hpred
        have hr1ne : r.1 ≠ [] := by
          intro he
          rw [he] at hrne2
          simp at hrne2
        have hrT : r.1 <+: c :: rest := List.isPrefixOf_iff_prefix.mp hrpre2
        have hrlen : 0 < r.1.length := List.length_pos.mpr hr1ne
        rw [singlePassSubst_pos' (by simp) (hfind2.trans hf)]
        have hrk : r ≠ (k, v) := by
          intro he
          rw [he] at hrpre2
          exact hk hrpre2
        have hnomatch : ∀ j, j < r.1.length →
            ¬ k.isPrefixOf (List.drop j (c :: rest)) = true := by
          intro j hj habs
          have hklen : 0 < k.length := List.length_pos.mpr hkne
          have := hnov r hr_mem (k, v) hkv_mem 0 j
            (by rw [List.drop_zero]; exact hrpre2) habs (Or.inl hrk)
          dsimp only at this
          omega
        have hdecomp := replaceCore_no_match_take (k := k) (v := v)
          r.1.length (c :: rest) hnomatch
        have htake : List.take r.1.length (c :: rest) = r.1 :=
          (List.prefix_iff_eq_take.mp hrT).symm
        rw [hdecomp, htake]
        have hfind3 : M'.find? (fun kv => !kv.1.isEmpty
              && kv.1.isPrefixOf
                (r.1 ++ replaceCore k v (List.drop r.1.length (c :: rest))))
            = some r := by
          apply find?_unique hrmem
          · rw [Bool.and_eq_true]
            exact ⟨hrne2, List.isPrefixOf_iff_prefix.mpr (List.prefix_append _ _)⟩
          · intro y hy hpy
            rw [Bool.and_eq_true] at hpy
            obtain ⟨hyne2, hypre⟩ := hpy
            have hyne : y.1 ≠ [] := by
              intro he
              rw [he] at hyne2
              simp at hyne2
            have hy_mem : y ∈ (k, v) :: M' := List.mem_cons_of_mem _ hy
            have hyA : y.1 <+: r.1 ++ replaceCore k v (List.drop r.1.length (c :: rest)) :=
              List.isPrefixOf_iff_prefix.mp hypre
            have hylen : 0 < y.1.length := List.length_pos.mpr hyne
            by_cases hly : y.1.length ≤ r.1.length
            · have hyr : y.1 <+: r.1 :=
                List.prefix_of_prefix_length_le hyA (List.prefix_append _ _) hly
              have hyT : y.1 <+: c :: rest := hyr.trans hrT
              by_contra hne3
              have := hnov y hy_mem r hr_mem 0 0
                (by rw [List.drop_zero]; exact List.isPrefixOf_iff_prefix.mpr hyT)
                (by rw [List.drop_zero]; exact hrpre2) (Or.inl hne3)
              omega
            · push_neg at hly
              have hry : r.1 <+: y.1 :=
                List.prefix_of_prefix_length_le (List.prefix_append _ _) hyA
                  (Nat.le_of_lt hly)
              obtain ⟨w, hw⟩ := hry
              have hwpre : w <+: replaceCore k v (List.drop r.1.length (c :: rest)) := by
                rw [← hw] at hyA
                exact ( List.prefix_append_right_inj _).mp hyA
              have hwv : ∀ c0 ∈ w, c0 ∉ v := by
                intro c0 hc0
                exact key_avoids_value hfresh hkv_mem hy_mem c0
                  (hw ▸ List.mem_append_right r.1 hc0)
              have hwdrop : w <+: List.drop r.1.length (c :: rest) :=
                prefix_reflect hvne hwv hwpre
              have hyT : y.1 <+: c :: rest := by
                rw [← hw]
                conv_rhs => rw [← List.take_append_drop r.1.length (c :: rest)]
                rw [htake]
                exact ( List.prefix_append_right_inj _).mpr hwdrop
              by_contra hne3
              have := hnov y hy_mem r hr_mem 0 0
                (by rw [List.drop_zero]; exact List.isPrefixOf_iff_prefix.mpr hyT)
                (by rw [List.drop_zero]; exact hrpre2) (Or.inl hne3)
              omega
        rw [singlePassSubst_pos'
          (by simp [List.append_eq_nil, hr1ne]) hfind3]
        rw [List.drop_left]
        congr 1
        exact IH (List.drop r.1.length (c :: rest))
          (by simp only [List.length_drop, List.length_cons]; omega)
          (safe_drop hsafe r.1.length)

/-- C2 (amended): for every template and override map whose keys and values
are non-empty, whose keys' occurrences in the template never overlap, and
whose values share no character with any key, the sequential rendering the
code performs equals the template with every key simultaneously replaced by
its value (the spec's single-pass substitution). -/
theorem c2_safe_render_eq_singlePass :
    ∀ (M : List (List Char × List Char)) (T : List Char),
      Safe M T → applyOverrides M T = singlePassSubst M T := by
  intro M
  induction M with
  | nil =>
    intro T _
    exact (singlePass_nil_overrides T).symm
  | cons kv M' ihM =>
    obtain ⟨k, v⟩ := kv
    intro T hsafe
    have hkne : k ≠ [] := (hsafe.1 (k, v) (List.mem_cons_self _ _)).1
    have hkE : k.isEmpty = false := by
      cases k with
      | nil => exact absurd rfl hkne
      | cons a l => rfl
    have hpy : pyReplace T k v = replaceCore k v T := by
      simp [pyReplace, hkE]
    have hstep : applyOverrides ((k, v) :: M') T
        = applyOverrides M' (replaceCore k v T) := by
      show applyOverrides M' (pyReplace T k v) = _
      rw [hpy]
    rw [hstep]
    have hsafe2 : Safe M' (replaceCore k v T) :=
      ⟨fun p hp => hsafe.1 p (List.mem_cons_of_mem _ hp),
       fun p hp q hq =>
         hsafe.2.1 p (List.mem_cons_of_mem _ hp) q (List.mem_cons_of_mem _ hq),
       nonOverlap_replace T hsafe⟩
    rw [ihM (replaceCore k v T) hsafe2]
    exact (singlePass_replace_step T hsafe).symm

theorem c2_safe_render_eq_singlePass_witness :
    Safe [(sl "__NAME__", sl "kafka"), (sl "__BOOTSTRAP_SERVERS__", sl "localhost:9092")]
        (sl "__NAME__ connects to __BOOTSTRAP_SERVERS__")
    ∧ applyOverrides
        [(sl "__NAME__", sl "kafka"), (sl "__BOOTSTRAP_SERVERS__", sl "localhost:9092")]
        (sl "__NAME__ connects to __BOOTSTRAP_SERVERS__")
      = singlePassSubst
        [(sl "__NAME__", sl "kafka"), (sl "__BOOTSTRAP_SERVERS__", sl "localhost:9092")]
        (sl "__NAME__ connects to __BOOTSTRAP_SERVERS__")
    ∧ applyOverrides
        [(sl "__NAME__", sl "kafka"), (sl "__BOOTSTRAP_SERVERS__", sl "localhost:9092")]
        (sl "__NAME__ connects to __BOOTSTRAP_SERVERS__")
      = sl "kafka connects to localhost:9092" :=
  have hs : Safe
      [(sl "__NAME__", sl "kafka"), (sl "__BOOTSTRAP_SERVERS__", sl "localhost:9092")]
      (sl "__NAME__ connects to __BOOTSTRAP_SERVERS__") :=
    safe_of_safeB _ _ (by decide)
  ⟨hs, c2_safe_render_eq_singlePass _ _ hs, by decide⟩

end Bench
